import Mathlib

/-!
Verification of the lyneate report-layout engine.

The definitions below are a shallow embedding of the Rust sources:
`src/span.rs` (span overlay arithmetic), `src/util.rs` (byte-to-char span
conversion) and `src/report.rs` (line indexing, span classification,
multiline grouping, underline layout, gutter sizing, vertical spacing and
board construction).  Machine integers (`usize`) are modelled as `Nat`;
Rust `usize` subtraction is modelled with truncating `Nat` subtraction at
the places where the source cannot underflow.  Fallible steps (`unwrap`)
are modelled with `Option`, where `none` corresponds to a panic.
-/

namespace Lyneate

/-- RGB colour triple, `(u8, u8, u8)` in the source.  Only carried along;
no claim depends on byte overflow, so plain naturals suffice. -/
abbrev Color := Nat × Nat × Nat

/-- The span struct used by `report.rs` (`MessageSpan { start, end }`),
which implements the `MessageSpan` trait of `span.rs`. -/
structure MessageSpan where
  start : Nat
  «end» : Nat
deriving DecidableEq, Repr

/-- Trait method `len` of `span.rs` (called `size` at its use sites in
`report.rs`): `end - start`. -/
def MessageSpan.size (s : MessageSpan) : Nat := s.«end» - s.start

/-- Trait method `sub`: shift the span left by `n` (never underflows at
its use site, where `n` is the start offset of the containing line). -/
def MessageSpan.sub (s : MessageSpan) (n : Nat) : MessageSpan :=
  ⟨s.start - n, s.«end» - n⟩

/-- Trait method `plus`: shift the span right by `n`. -/
def MessageSpan.plus (s : MessageSpan) (n : Nat) : MessageSpan :=
  ⟨s.start + n, s.«end» + n⟩

/-- Embeds `SpanOverlay` from `span.rs`: what remains visible of a bottom span
after a top span is overlaid on it. -/
inductive SpanOverlay where
  | none : SpanOverlay
  | single : MessageSpan → SpanOverlay
  | double : MessageSpan → MessageSpan → SpanOverlay
deriving DecidableEq, Repr

/-- The default `overlay` method of the `MessageSpan` trait
(`src/span.rs`, lines 86 to 107), instantiated at the span struct. -/
def MessageSpan.overlay (s over : MessageSpan) : SpanOverlay :=
  if over.start = over.«end» ∨ over.«end» ≤ s.start ∨ over.start ≥ s.«end» then
    SpanOverlay.single s
  else if over.start ≤ s.start then
    if over.«end» ≥ s.«end» then SpanOverlay.none
    else SpanOverlay.single ⟨over.«end», s.«end»⟩
  else if over.«end» ≥ s.«end» then
    SpanOverlay.single ⟨s.start, over.start⟩
  else
    SpanOverlay.double ⟨s.start, over.start⟩ ⟨over.«end», s.«end»⟩

/-- The `Iterator` instance of `SpanOverlay`, collected into a list:
`None` yields nothing, `Single` one span, `Double` two in order. -/
def SpanOverlay.toList : SpanOverlay → List MessageSpan
  | SpanOverlay.none => []
  | SpanOverlay.single s => [s]
  | SpanOverlay.double a b => [a, b]

/-! ### Byte-to-char span conversion (`src/util.rs`) -/

/-- The UTF-8 byte length of a character, as Rust `char::len_utf8`. -/
def utf8Len (c : Char) : Nat :=
  if c.toNat < 0x80 then 1
  else if c.toNat < 0x800 then 2
  else if c.toNat < 0x10000 then 3
  else 4

/-- Total UTF-8 byte length of a text (a `&str` modelled as its list of
characters). -/
def byteLen (cs : List Char) : Nat := (cs.map utf8Len).sum

/-- Embeds `text[..b].chars().count()` for a byte offset `b` that falls on a
character boundary: the number of characters in the first `b` bytes. -/
def charsUpTo : List Char → Nat → Nat
  | _, 0 => 0
  | [], _ + 1 => 0
  | c :: rest, b + 1 => 1 + charsUpTo rest (b + 1 - utf8Len c)

/-- Embeds `&text[b..]` for a boundary byte offset `b`: drop the characters
occupying the first `b` bytes. -/
def byteDrop : List Char → Nat → List Char
  | cs, 0 => cs
  | [], _ + 1 => []
  | c :: rest, b + 1 => byteDrop rest (b + 1 - utf8Len c)

/-- Embeds `byte_span_to_char_span` from `src/util.rs`: the char offset of the
byte start, plus the char count of the byte-sliced middle as the size. -/
def byte_span_to_char_span (text : List Char) (byte_span : MessageSpan) : MessageSpan :=
  let start := charsUpTo text byte_span.start
  let size := charsUpTo (byteDrop text byte_span.start) (byte_span.«end» - byte_span.start)
  ⟨start, start + size⟩

/-- The span normalization at the top of `display` (`report.rs` lines 127
to 131): byte-spanned reports (`realign = true`) convert each span against
the raw source, char-spanned reports keep it as given. -/
def resolveSpan (realign : Bool) (text : List Char) (span : MessageSpan) : MessageSpan :=
  if realign then byte_span_to_char_span text span else span

/-! ### Line indexer (`report.rs` lines 57 to 98) -/

/-- Embeds `LineInfo` of `display`: a line slice with its absolute char range,
`end` exclusive and including the trailing newline when present. -/
structure LineInfo where
  line : List Char
  start : Nat
  «end» : Nat
deriving DecidableEq, Repr

/-- The slice `code[a..b]` of a char sequence. -/
def sliceSpan (code : List Char) (a b : Nat) : List Char :=
  (code.drop a).take (b - a)

/-- The line-splitting loop of `display`: walk the characters with their
absolute index `i`, cutting a line at each newline (newline included) and
a final line from the last cut to the end of the code. -/
def splitLinesGo (code : List Char) : List Char → Nat → Nat → List LineInfo
  | [], _, start => [⟨sliceSpan code start code.length, start, code.length⟩]
  | c :: rest, i, start =>
    if c = '\n' then
      ⟨sliceSpan code start (i + 1), start, i + 1⟩ :: splitLinesGo code rest (i + 1) (i + 1)
    else
      splitLinesGo code rest (i + 1) start

/-- The `lines` value of `display`. -/
def splitLines (code : List Char) : List LineInfo :=
  splitLinesGo code code 0 0

/-- Embeds `get_line` of `display`: the index of the line whose `[start, end)`
contains the offset, falling back to the last line index. -/
def get_line (lines : List LineInfo) (c : Nat) : Nat :=
  (lines.findIdx? (fun l => decide (l.start ≤ c) && decide (c < l.«end»))).getD
    (lines.length - 1)

/-! ### Span classifier (`report.rs` lines 100 to 152) -/

/-- Embeds `LinearMsg` of `display`: a single-line message with its span rebased
to line-local offsets. -/
structure LinearMsg where
  color : Color
  span : MessageSpan
  msg : String
deriving DecidableEq, Repr

/-- Embeds `MultilineMsg` of `display`. -/
structure MultilineMsg where
  color : Color
  start_line : Nat
  end_line : Nat
  pre_len : Nat
  end_len : Nat
  msg : String
deriving DecidableEq, Repr

/-- Embeds `BTreeMap::entry(k).or_default().push(v)` on the `linear` map,
modelled as a key-sorted association list of buckets. -/
def insertLinear : List (Nat × List LinearMsg) → Nat → LinearMsg → List (Nat × List LinearMsg)
  | [], k, v => [(k, [v])]
  | (k2, vs) :: rest, k, v =>
    if k < k2 then (k, [v]) :: (k2, vs) :: rest
    else if k = k2 then (k2, vs ++ [v]) :: rest
    else (k2, vs) :: insertLinear rest k v

/-- The classification loop of `display` (lines 122 to 152): resolve each
span, look up its start and end lines, and emit a `LinearMsg` (rebased to
the line start) when they coincide, a `MultilineMsg` otherwise. -/
def classify (lines : List LineInfo) (realign : Bool) (codeChars : List Char)
    (messages : List (MessageSpan × String × Color)) :
    List (Nat × List LinearMsg) × List MultilineMsg :=
  messages.foldl
    (fun acc t =>
      let span := resolveSpan realign codeChars t.1
      let start_line := get_line lines span.start
      let end_line := get_line lines span.«end»
      if start_line = end_line then
        (insertLinear acc.1 start_line
          { color := t.2.2
            span := span.sub (lines.getD start_line ⟨[], 0, 0⟩).start
            msg := t.2.1 },
         acc.2)
      else
        (acc.1,
         acc.2 ++ [{ color := t.2.2
                     start_line := start_line
                     end_line := end_line
                     pre_len := span.start - (lines.getD start_line ⟨[], 0, 0⟩).start
                     end_len := span.«end» - (lines.getD end_line ⟨[], 0, 0⟩).start
                     msg := t.2.1 }]))
    ([], [])

/-! ### Multiline grouper (`report.rs` lines 154 to 181) -/

/-- Embeds `MultilineGroup` of `display`. -/
structure MultilineGroup where
  first_line : Nat
  last_line : Nat
  msgs : List MultilineMsg
deriving DecidableEq, Repr

/-- One iteration of the labelled grouping loop: scan the existing groups
in creation order; the first group whose closed line interval intersects
the message interval absorbs the message (its bounds widened), otherwise a
new singleton group is appended at the end. -/
def mergeInto : List MultilineGroup → MultilineMsg → List MultilineGroup
  | [], msg => [⟨msg.start_line, msg.end_line, [msg]⟩]
  | g :: rest, msg =>
    if g.first_line ≤ msg.end_line ∧ msg.start_line ≤ g.last_line then
      ⟨Nat.min g.first_line msg.start_line, Nat.max g.last_line msg.end_line,
        g.msgs ++ [msg]⟩ :: rest
    else
      g :: mergeInto rest msg

/-- The `multiline_groups` value of `display`. -/
def groupMultiline (msgs : List MultilineMsg) : List MultilineGroup :=
  msgs.foldl mergeInto []

/-- Membership of two messages in one common group of a grouping. -/
def sameGroup (groups : List MultilineGroup) (a b : MultilineMsg) : Prop :=
  ∃ g ∈ groups, a ∈ g.msgs ∧ b ∈ g.msgs

instance (groups : List MultilineGroup) (a b : MultilineMsg) :
    Decidable (sameGroup groups a b) :=
  inferInstanceAs (Decidable (∃ g ∈ groups, a ∈ g.msgs ∧ b ∈ g.msgs))

/-! ### Per-line state and layout commands (`report.rs` lines 183 to 235) -/

/-- Embeds `FinalLine` of `display`. -/
structure FinalLine where
  underline_highlights : List (MessageSpan × Color)
  multiline_highlights : List (MessageSpan × Color)
  spacing : Nat
deriving DecidableEq, Repr

/-- Embeds `FinalLine::new`. -/
def FinalLine.new : FinalLine :=
  { underline_highlights := [], multiline_highlights := [], spacing := 0 }

/-- The initial `final_lines` map: one fresh entry per key of the sorted
`linear` map. -/
def finalLinesInit (linear : List (Nat × List LinearMsg)) : List (Nat × FinalLine) :=
  linear.map (fun kv => (kv.1, FinalLine.new))

/-- Embeds `UnderlineCommand` of `display`. -/
structure UnderlineCommand where
  line : Nat
  span : MessageSpan
  msg : String
  color : Color
  depth : Nat
  connector_pos : Nat
deriving DecidableEq, Repr

/-- Embeds `MultilineCommand` of `display`. -/
structure MultilineCommand where
  start_line : Nat
  end_line : Nat
  spacing_end : Nat
  msg : String
  color : Color
  depth : Nat
  side_height : Nat
deriving DecidableEq, Repr

/-- Embeds `Iterator::max` over a list of naturals, `none` on an empty list. -/
def listMax (l : List Nat) : Option Nat :=
  l.foldr
    (fun a acc =>
      match acc with
      | Option.none => some a
      | some b => some (Nat.max a b))
    Option.none

/-- Embeds `side_space` of `display` (lines 230 to 235): the largest group size
times `side_pointer_length + 1`, plus one; zero when no group exists. -/
def side_space (groups : List MultilineGroup) (side_pointer_length : Nat) : Nat :=
  (Option.map (fun v => v * (side_pointer_length + 1) + 1)
    (listMax (groups.map (fun g => g.msgs.length)))).getD 0

/-! ### Underline layout (`report.rs` lines 237 to 285) -/

/-- In-place update of the element at an index; the list is unchanged when
the index is out of range. -/
def modifyAt {α : Type} : List α → Nat → (α → α) → List α
  | [], _, _ => []
  | a :: rest, 0, f => f a :: rest
  | a :: rest, n + 1, f => a :: modifyAt rest n f

/-- The pairwise de-overlap double loop of `display` (lines 240 to 247):
for each `i`, overlay onto the running visible pieces of entry `i` the
head span `visible_spans[j][0]` of every later entry `j`.  The head lookup
falls back to an empty dummy span; at the call site every later entry is a
still-untouched nonempty singleton, so the fallback is never taken. -/
def overlayAll (vs0 : List (List MessageSpan)) : List (List MessageSpan) :=
  (List.range (vs0.length - 1)).foldl
    (fun vs i =>
      (List.range' (i + 1) (vs.length - (i + 1))).foldl
        (fun vs2 j =>
          let top := (vs2.getD j []).headD ⟨0, 0⟩
          modifyAt vs2 i (fun spans => spans.flatMap (fun s => (s.overlay top).toList)))
        vs)
    vs0

/-- The labelled connector search of `display` (lines 257 to 274): walk
the visible remainders carrying the closest candidate so far; a remainder
containing the ideal midpoint short-circuits to its own midpoint, else the
candidate with the smallest edge distance wins (earlier on ties), and with
no remainder at all the ideal midpoint is used. -/
def connectorGo (middle : Nat) : List MessageSpan → Option (MessageSpan × Nat) → Nat
  | [], best => (Option.map (fun p => p.1.start + p.1.size / 2) best).getD middle
  | s :: rest, best =>
    if s.start ≤ middle ∧ middle < s.«end» then s.start + s.size / 2
    else
      let diff := if s.«end» ≤ middle then middle - s.«end» else s.start - middle - 1
      let best2 :=
        match best with
        | Option.none => some (s, diff)
        | some (s0, v) => if diff < v then some (s, diff) else some (s0, v)
      connectorGo middle rest best2

/-- Embeds `connector_pos` of an underline: ideal midpoint `start + size / 2`,
corrected through the visible remainders. -/
def connector_pos (span : MessageSpan) (spans : List MessageSpan) : Nat :=
  connectorGo (span.start + span.size / 2) spans Option.none

/-- The per-message body of the linear loop (lines 249 to 284): push the
underline highlight, grow the line spacing by `2 + underline_spacing` for
the first message on the line and `1 + underline_spacing` afterwards, and
emit a command whose depth is the new spacing minus one. -/
def applyLinearMsgs (underline_spacing : Nat) (line : Nat) :
    List (LinearMsg × List MessageSpan) → FinalLine → List UnderlineCommand →
    FinalLine × List UnderlineCommand
  | [], f, cmds => (f, cmds)
  | (m, spans) :: rest, f, cmds =>
    let newSpacing := f.spacing + (if f.spacing = 0 then 2 else 1) + underline_spacing
    let f2 := { f with
      underline_highlights := f.underline_highlights ++ [(m.span, m.color)]
      spacing := newSpacing }
    let cmd : UnderlineCommand :=
      { line := line, span := m.span, msg := m.msg, color := m.color
        depth := newSpacing - 1, connector_pos := connector_pos m.span spans }
    applyLinearMsgs underline_spacing line rest f2 (cmds ++ [cmd])

/-- Lookup in the `final_lines` map (a key-sorted association list). -/
def lookupFL (fl : List (Nat × FinalLine)) (k : Nat) : FinalLine :=
  ((fl.find? (fun e => e.1 == k)).map (fun e => e.2)).getD FinalLine.new

/-- Replace the value bound to a present key. -/
def mapUpdate (fl : List (Nat × FinalLine)) (k : Nat) (f : FinalLine → FinalLine) :
    List (Nat × FinalLine) :=
  fl.map (fun e => if e.1 = k then (e.1, f e.2) else e)

/-- The linear loop of `display` (lines 237 to 285): per referenced line,
compute the visible remainders of its messages and process the messages in
order, updating that line in `final_lines` and accumulating commands. -/
def processLinear (underline_spacing : Nat) (entries : List (Nat × List LinearMsg))
    (fl : List (Nat × FinalLine)) :
    List (Nat × FinalLine) × List UnderlineCommand :=
  entries.foldl
    (fun acc e =>
      let pairs := e.2.zip (overlayAll (e.2.map (fun m => [m.span])))
      let f0 := lookupFL acc.1 e.1
      let r := applyLinearMsgs underline_spacing e.1 pairs f0 []
      (mapUpdate acc.1 e.1 (fun _ => r.1), acc.2 ++ r.2))
    (fl, [])

/-! ### Vertical gutter allocation (`report.rs` lines 286 to 330) -/

/-- Embeds `Utf32Str::trim_end`: drop trailing whitespace characters. -/
def trimEnd (l : List Char) : List Char :=
  (l.reverse.dropWhile Char.isWhitespace).reverse

/-- Embeds `BTreeMap::entry(k).or_insert(FinalLine::new())` key part: insert a
fresh entry at the sorted position when the key is absent. -/
def insertOrNew : List (Nat × FinalLine) → Nat → List (Nat × FinalLine)
  | [], k => [(k, FinalLine.new)]
  | (k2, v) :: rest, k =>
    if k < k2 then (k, FinalLine.new) :: (k2, v) :: rest
    else if k = k2 then (k2, v) :: rest
    else (k2, v) :: insertOrNew rest k

/-- The body of the multiline loop (lines 287 to 329) for one member of a
group: push the start-line highlight (from `pre_len` to the trimmed line
length), push the end-line highlight (from 0 to `end_len`), grow the
spacing of the `spacing_end` line by two, and emit a command whose depth
is that new spacing and whose side height is the member index. -/
def applyMultilineMsg (lines : List LineInfo) (group_last : Nat) (side : Nat)
    (msg : MultilineMsg) (fl : List (Nat × FinalLine)) :
    List (Nat × FinalLine) × MultilineCommand :=
  let fl1 := mapUpdate (insertOrNew fl msg.start_line) msg.start_line
    (fun f => { f with multiline_highlights := f.multiline_highlights ++
      [(⟨msg.pre_len, (trimEnd (lines.getD msg.start_line ⟨[], 0, 0⟩).line).length⟩,
        msg.color)] })
  let fl2 := mapUpdate (insertOrNew fl1 msg.end_line) msg.end_line
    (fun f => { f with multiline_highlights := f.multiline_highlights ++
      [(⟨0, msg.end_len⟩, msg.color)] })
  let spacing_end := Nat.max msg.end_line group_last
  let fl3 := mapUpdate (insertOrNew fl2 spacing_end) spacing_end
    (fun f => { f with spacing := f.spacing + 2 })
  let depth := (lookupFL fl3 spacing_end).spacing
  (fl3,
   { start_line := msg.start_line, end_line := msg.end_line
     spacing_end := spacing_end, msg := msg.msg, color := msg.color
     depth := depth, side_height := side })

/-- The multiline loop of `display` (lines 286 to 330): each group member
is processed with its 0-based side index. -/
def processMultiline (lines : List LineInfo) (groups : List MultilineGroup)
    (fl : List (Nat × FinalLine)) :
    List (Nat × FinalLine) × List MultilineCommand :=
  groups.foldl
    (fun acc g =>
      g.msgs.enum.foldl
        (fun acc2 sm =>
          let r := applyMultilineMsg lines g.last_line sm.1 sm.2 acc2.1
          (r.1, acc2.2 ++ [r.2]))
        acc)
    (fl, [])

/-! ### Final spacing pass (`report.rs` lines 332 to 339) -/

/-- The adjustment applied to one `final_lines` entry: a line with zero
spacing whose successor line index is not referenced gains one row. -/
def adjustOne (fl : List (Nat × FinalLine)) (e : Nat × FinalLine) : Nat × FinalLine :=
  if e.2.spacing = 0 ∧ (∀ e2 ∈ fl, e2.1 ≠ e.1 + 1) then
    (e.1, { e.2 with spacing := e.2.spacing + 1 })
  else e

/-- The final spacing pass over the snapshot of keys; the loop never adds
or removes keys, so it is a pointwise map over the entries. -/
def adjustSpacing (fl : List (Nat × FinalLine)) : List (Nat × FinalLine) :=
  fl.map (adjustOne fl)

/-! ### Board (`report.rs` lines 341 to 429 and 584) -/

/-- Embeds `BoardCell` of `display`. -/
structure BoardCell where
  color : Option Color
  ch : Char
deriving DecidableEq, Repr

/-- The blank cell used when a row grows. -/
def blankCell : BoardCell := { color := Option.none, ch := ' ' }

/-- Embeds `BoardRow` of `display`. -/
structure BoardRow where
  line : Option Nat
  cells : List BoardCell
  end_str : Option String
deriving DecidableEq, Repr

/-- Embeds `BoardRow::write_char` through `BoardRow::get_cell` (lines 370 to
397): with the trailing message set, only an in-range cell is written (an
out-of-range write is dropped); otherwise the row is first grown with
blank cells up to the index and the write always lands. -/
def BoardRow.write_char (row : BoardRow) (ch : Char) (idx : Nat) : BoardRow :=
  if row.end_str.isSome then
    { row with cells := modifyAt row.cells idx (fun c => { c with ch := ch }) }
  else
    let cells :=
      if row.cells.length ≤ idx then
        row.cells ++ List.replicate (idx + 1 - row.cells.length) blankCell
      else row.cells
    { row with cells := modifyAt cells idx (fun c => { c with ch := ch }) }

/-- The board-building loop (lines 400 to 421): per referenced line, one
content row holding the gutter padding plus the trimmed line text,
followed by `spacing` empty spacer rows. -/
def buildBoard (lines : List LineInfo) (ss : Nat) (fl : List (Nat × FinalLine)) :
    List BoardRow :=
  fl.flatMap
    (fun e =>
      { line := some e.1
        cells := (List.replicate ss ' ' ++ trimEnd (lines.getD e.1 ⟨[], 0, 0⟩).line).map
          (fun v => { color := Option.none, ch := v })
        end_str := Option.none } ::
      List.replicate e.2.spacing { line := Option.none, cells := [], end_str := Option.none })

/-- Embeds `final_lines.last_key_value().unwrap()` followed by the digit count
(line 584), as an `Option`: `none` models the panic of `unwrap` on an
empty map, and `Nat.log 10 (k + 1) + 1` is `(k + 1).ilog10() + 1`. -/
def maxLineNumLen (fl : List (Nat × FinalLine)) : Option Nat :=
  Option.map (fun kv => Nat.log 10 (kv.1 + 1) + 1) fl.getLast?

/-- The layout part of `display`, composed end to end: split lines,
classify, group, size the gutter, lay out linear then multiline messages,
run the final spacing pass, build the board, and compute the line-number
column width.  The width is `none` exactly when the source `unwrap`
panics. -/
def display_layout (code : List Char) (realign : Bool)
    (underline_spacing side_pointer_length : Nat)
    (messages : List (MessageSpan × String × Color)) :
    List BoardRow × Option Nat :=
  let lines := splitLines code
  let cm := classify lines realign code messages
  let groups := groupMultiline cm.2
  let ss := side_space groups side_pointer_length
  let fl0 := finalLinesInit cm.1
  let r1 := processLinear underline_spacing cm.1 fl0
  let r2 := processMultiline lines groups r1.1
  let fl3 := adjustSpacing r2.1
  (buildBoard lines ss fl3, maxLineNumLen fl3)

/-! ### Concrete inputs used by the claim theorems -/

/-- A multiline message covering lines 0 to 1. -/
def mA : MultilineMsg := ⟨(0, 0, 0), 0, 1, 0, 0, ""⟩

/-- A multiline message covering lines 3 to 4. -/
def mB : MultilineMsg := ⟨(0, 0, 0), 3, 4, 0, 0, ""⟩

/-- A multiline message covering lines 1 to 3, bridging `mA` and `mB`. -/
def mC : MultilineMsg := ⟨(0, 0, 0), 1, 3, 0, 0, ""⟩

/-- A multiline message covering lines 0 to 2. -/
def mD : MultilineMsg := ⟨(0, 0, 0), 0, 2, 0, 0, "d"⟩

/-- A multiline message covering lines 1 to 4, overlapping `mD`. -/
def mE : MultilineMsg := ⟨(0, 0, 0), 1, 4, 0, 0, "e"⟩

/-- First linear message of the two-underline scenario: span `0..10`. -/
def c3first : LinearMsg := ⟨(255, 0, 0), ⟨0, 10⟩, "first"⟩

/-- Second linear message of the two-underline scenario: span `4..6`. -/
def c3second : LinearMsg := ⟨(255, 0, 0), ⟨4, 6⟩, "second"⟩

/-- The underline commands produced for one line holding the two scenario
messages, processed in encounter order with `underline_spacing = 1`. -/
def c3cmds : List UnderlineCommand :=
  (processLinear 1 [(0, [c3first, c3second])]
    (finalLinesInit [(0, [c3first, c3second])])).2

/-- A per-line state with one reserved spacing row and no highlights. -/
def flOne : FinalLine :=
  { underline_highlights := [], multiline_highlights := [], spacing := 1 }

/-! ## Theorems -/

/-- Claim C8: overlaying an empty top span (start equal to end) onto any
bottom span returns the bottom span unchanged as a single remainder, even
when the empty span lies strictly inside the bottom span. -/
theorem C8_empty_top_identity (s t : MessageSpan) (h : t.start = t.«end») :
    s.overlay t = SpanOverlay.single s := by
  unfold MessageSpan.overlay
  rw [if_pos (Or.inl h)]

/-- Witness for C8 at a concrete input: the empty span `5..5` strictly
inside `2..7` occludes nothing. -/
theorem C8_empty_top_identity_witness :
    MessageSpan.overlay ⟨2, 7⟩ ⟨5, 5⟩ = SpanOverlay.single ⟨2, 7⟩ :=
  C8_empty_top_identity ⟨2, 7⟩ ⟨5, 5⟩ rfl

/-- Claim C4, counterexample: for the empty bottom span `3..3` and a top
span exactly equal to it, the overlay is not empty; it returns the bottom
span unchanged, so the claim fails as universally stated. -/
theorem C4_equal_spans_counterexample :
    MessageSpan.overlay ⟨3, 3⟩ ⟨3, 3⟩ = SpanOverlay.single ⟨3, 3⟩ ∧
    MessageSpan.overlay ⟨3, 3⟩ ⟨3, 3⟩ ≠ SpanOverlay.none := by decide

/-- Claim C4, amended: for every non-empty bottom span, a top span that
equals it or fully covers it (top start at or before bottom start, top end
at or after bottom end) overlays to an empty result. -/
theorem C4_cover_amended (s t : MessageSpan) (hs : s.start < s.«end»)
    (h1 : t.start ≤ s.start) (h2 : s.«end» ≤ t.«end») :
    s.overlay t = SpanOverlay.none := by
  unfold MessageSpan.overlay
  rw [if_neg (by omega), if_pos (by omega), if_pos (by omega)]

/-- Witness for the amended C4 at concrete inputs: a top equal to `2..5`
and a top `1..6` strictly covering it both leave nothing visible. -/
theorem C4_cover_amended_witness :
    MessageSpan.overlay ⟨2, 5⟩ ⟨2, 5⟩ = SpanOverlay.none ∧
    MessageSpan.overlay ⟨2, 5⟩ ⟨1, 6⟩ = SpanOverlay.none :=
  ⟨C4_cover_amended ⟨2, 5⟩ ⟨2, 5⟩ (by decide) (by decide) (by decide),
   C4_cover_amended ⟨2, 5⟩ ⟨1, 6⟩ (by decide) (by decide) (by decide)⟩

/-- Claim C5, counterexample: the empty top span `5..5` satisfies the
strict containment bounds inside `0..10`, yet the overlay returns the
bottom span unchanged rather than the two bracketing remainders. -/
theorem C5_strict_containment_counterexample :
    (0 < 5 ∧ 5 < 10) ∧
    MessageSpan.overlay ⟨0, 10⟩ ⟨5, 5⟩ = SpanOverlay.single ⟨0, 10⟩ ∧
    MessageSpan.overlay ⟨0, 10⟩ ⟨5, 5⟩ ≠ SpanOverlay.double ⟨0, 5⟩ ⟨5, 10⟩ := by
  decide

/-- Claim C5, amended: a non-empty top span strictly contained in the
bottom span yields exactly the two remainders bracketing it, and a top
span disjoint from the bottom span (entirely at or before its start, or
entirely at or after its end) leaves the bottom span unchanged. -/
theorem C5_overlay_amended :
    (∀ s t : MessageSpan, t.start < t.«end» → s.start < t.start →
      t.«end» < s.«end» →
      s.overlay t = SpanOverlay.double ⟨s.start, t.start⟩ ⟨t.«end», s.«end»⟩) ∧
    (∀ s t : MessageSpan, t.«end» ≤ s.start ∨ s.«end» ≤ t.start →
      s.overlay t = SpanOverlay.single s) := by
  constructor
  · intro s t h1 h2 h3
    unfold MessageSpan.overlay
    rw [if_neg (by omega), if_neg (by omega), if_neg (by omega)]
  · intro s t h
    unfold MessageSpan.overlay
    rw [if_pos (by omega)]

/-- Witness for the amended C5 at concrete inputs: `3..7` strictly inside
`0..10` leaves `0..3` and `7..10`, and the disjoint `5..9` leaves `0..3`
unchanged. -/
theorem C5_overlay_amended_witness :
    MessageSpan.overlay ⟨0, 10⟩ ⟨3, 7⟩ = SpanOverlay.double ⟨0, 3⟩ ⟨7, 10⟩ ∧
    MessageSpan.overlay ⟨0, 3⟩ ⟨5, 9⟩ = SpanOverlay.single ⟨0, 3⟩ :=
  ⟨C5_overlay_amended.1 ⟨0, 10⟩ ⟨3, 7⟩ (by decide) (by decide) (by decide),
   C5_overlay_amended.2 ⟨0, 3⟩ ⟨5, 9⟩ (Or.inr (by decide))⟩

/-- Claim C1, counterexample: in the input ordering `mA, mB, mC`, the
bridging message `mC` merges into the first group only, so `mB` and `mC`
have overlapping closed line intervals yet end up in different groups. -/
theorem C1_grouping_counterexample :
    (mB.start_line ≤ mC.end_line ∧ mC.start_line ≤ mB.end_line) ∧
    ¬ sameGroup (groupMultiline [mA, mB, mC]) mB mC := by decide

/-- Claim C1, amended: when the input consists of exactly two multiline
annotations (each with a well-formed line interval), they end up in the
same group exactly when their closed line intervals overlap; a third
annotation can bridge two groups without merging them, so the property is
not order-independent beyond pairs. -/
theorem C1_pair_grouping (a b : MultilineMsg)
    (ha : a.start_line ≤ a.end_line) (hb : b.start_line ≤ b.end_line) :
    sameGroup (groupMultiline [a, b]) a b ↔
      (a.start_line ≤ b.end_line ∧ b.start_line ≤ a.end_line) := by
  unfold sameGroup groupMultiline
  simp only [List.foldl]
  rw [show mergeInto [] a = [⟨a.start_line, a.end_line, [a]⟩] from rfl]
  by_cases hov : a.start_line ≤ b.end_line ∧ b.start_line ≤ a.end_line
  · rw [show mergeInto [⟨a.start_line, a.end_line, [a]⟩] b =
        [⟨Nat.min a.start_line b.start_line, Nat.max a.end_line b.end_line,
          [a] ++ [b]⟩] from by unfold mergeInto; rw [if_pos hov]]
    exact iff_of_true ⟨_, List.mem_singleton.2 rfl, by simp, by simp⟩ hov
  · rw [show mergeInto [⟨a.start_line, a.end_line, [a]⟩] b =
        [⟨a.start_line, a.end_line, [a]⟩, ⟨b.start_line, b.end_line, [b]⟩] from by
      unfold mergeInto; rw [if_neg hov]; rfl]
    refine iff_of_false ?_ hov
    rintro ⟨g, hg, hag, hbg⟩
    rcases List.mem_cons.1 hg with rfl | hg2
    · have hba : b = a := List.mem_singleton.1 hbg
      subst hba
      exact hov ⟨ha, ha⟩
    · rcases List.mem_singleton.1 hg2 with rfl
      have hab : a = b := List.mem_singleton.1 hag
      subst hab
      exact hov ⟨ha, ha⟩

/-- Witness for the amended C1 at a concrete input: the overlapping pair
`mD` (lines 0 to 2) and `mE` (lines 1 to 4) share a group. -/
theorem C1_pair_grouping_witness :
    sameGroup (groupMultiline [mD, mE]) mD mE :=
  (C1_pair_grouping mD mE (by decide) (by decide)).mpr (by decide)

/-- Claim C3, counterexample: in the scenario with spans `0..10` and
`4..6` on one line under `underline_spacing = 1`, the stacking depths are
2 and 4, so the second depth is not one greater than the first. -/
theorem C3_depth_counterexample :
    c3cmds.map (fun c => c.depth) = [2, 4] ∧ ¬ (4 = 2 + 1) := by decide

/-- Claim C3, amended: in the same scenario the second depth exceeds the
first by `1 + underline_spacing = 2` (not by one), and the first
annotation connector anchor is column 8, outside the occluded region
`4..6`. -/
theorem C3_scenario_amended :
    c3cmds.map (fun c => (c.depth, c.connector_pos)) = [(2, 8), (4, 5)] ∧
    4 = 2 + (1 + 1) ∧ ¬ (4 ≤ 8 ∧ 8 < 6) := by decide

/-- Claim C2: with an empty annotation collection the layout produces no
board rows, but the line-number width computation evaluates
`last_key_value` of the empty per-line map, whose `unwrap` faults (the
`none` below); the code panics instead of completing normally. -/
theorem C2_empty_messages_unwrap_faults :
    ∀ (code : List Char) (realign : Bool) (us spl : Nat),
      display_layout code realign us spl [] = ([], Option.none) :=
  fun _ _ _ _ => rfl

/-- An ASCII character occupies one UTF-8 byte. -/
theorem utf8Len_ascii {c : Char} (h : c.toNat < 128) : utf8Len c = 1 := by
  unfold utf8Len
  rw [if_pos h]

/-- On ASCII text, counting the characters of a byte prefix within bounds
is the identity. -/
theorem charsUpTo_ascii :
    ∀ (cs : List Char) (b : Nat), (∀ c ∈ cs, c.toNat < 128) → b ≤ cs.length →
      charsUpTo cs b = b := by
  intro cs
  induction cs with
  | nil =>
    intro b _ hb
    cases b with
    | zero => rfl
    | succ n => simp at hb
  | cons c rest ih =>
    intro b hascii hb
    cases b with
    | zero => rfl
    | succ n =>
      have hc : utf8Len c = 1 := utf8Len_ascii (hascii c (List.mem_cons_self c rest))
      show 1 + charsUpTo rest (n + 1 - utf8Len c) = n + 1
      rw [hc]
      have hr : charsUpTo rest n = n :=
        ih n (fun x hx => hascii x (List.mem_cons_of_mem c hx))
          (by simp only [List.length_cons] at hb; omega)
      simp only [Nat.add_sub_cancel, hr]
      omega

/-- On ASCII text, dropping a byte prefix is dropping that many
characters. -/
theorem byteDrop_ascii :
    ∀ (cs : List Char) (b : Nat), (∀ c ∈ cs, c.toNat < 128) →
      byteDrop cs b = cs.drop b := by
  intro cs
  induction cs with
  | nil => intro b _; cases b <;> rfl
  | cons c rest ih =>
    intro b hascii
    cases b with
    | zero => rfl
    | succ n =>
      show byteDrop rest (n + 1 - utf8Len c) = rest.drop n
      rw [utf8Len_ascii (hascii c (List.mem_cons_self c rest))]
      simp only [Nat.add_sub_cancel]
      exact ih n (fun x hx => hascii x (List.mem_cons_of_mem c hx))

/-- ASCII text has as many UTF-8 bytes as characters. -/
theorem byteLen_ascii :
    ∀ (cs : List Char), (∀ c ∈ cs, c.toNat < 128) → byteLen cs = cs.length := by
  intro cs
  induction cs with
  | nil => intro _; rfl
  | cons c rest ih =>
    intro hascii
    show utf8Len c + (rest.map utf8Len).sum = rest.length + 1
    rw [utf8Len_ascii (hascii c (List.mem_cons_self c rest))]
    have := ih (fun x hx => hascii x (List.mem_cons_of_mem c hx))
    unfold byteLen at this
    omega

/-- Claim C6: on pure-ASCII source text, a span within bounds resolves to
the same character span whether the report treats it as byte offsets
(converted through `byte_span_to_char_span`) or as character offsets. -/
theorem C6_ascii_byte_char_equiv (text : List Char)
    (hascii : ∀ c ∈ text, c.toNat < 128) (s : MessageSpan)
    (h1 : s.start ≤ s.«end») (h2 : s.«end» ≤ byteLen text) :
    resolveSpan true text s = resolveSpan false text s := by
  have hlen : byteLen text = text.length := byteLen_ascii text hascii
  show byte_span_to_char_span text s = s
  unfold byte_span_to_char_span
  rw [charsUpTo_ascii text s.start hascii (by omega)]
  rw [byteDrop_ascii text s.start hascii]
  rw [charsUpTo_ascii (text.drop s.start) (s.«end» - s.start)
    (fun c hc => hascii c (List.drop_subset s.start text hc))
    (by rw [List.length_drop]; omega)]
  cases s with
  | mk a b =>
    have h1a : a ≤ b := h1
    simp only [MessageSpan.mk.injEq]
    exact ⟨trivial, by omega⟩

/-- Witness for C6 at a concrete input: on the ASCII source of the spec
scenario, the byte span `4..5` resolves to the character span `4..5`. -/
theorem C6_ascii_byte_char_equiv_witness :
    resolveSpan true "let x = 1;".toList ⟨4, 5⟩ =
      resolveSpan false "let x = 1;".toList ⟨4, 5⟩ :=
  C6_ascii_byte_char_equiv "let x = 1;".toList (by decide) ⟨4, 5⟩
    (by decide) (by decide)

/-- An out-of-range in-place update leaves the list unchanged. -/
theorem modifyAt_out_of_range {α : Type} :
    ∀ (l : List α) (n : Nat) (f : α → α), l.length ≤ n → modifyAt l n f = l := by
  intro l
  induction l with
  | nil => intro n f _; rfl
  | cons a rest ih =>
    intro n f h
    cases n with
    | zero => simp at h
    | succ m =>
      show a :: modifyAt rest m f = a :: rest
      rw [ih m f (by simp only [List.length_cons] at h; omega)]

/-- An in-place update past a prefix acts on the suffix. -/
theorem modifyAt_append_right {α : Type} :
    ∀ (l1 l2 : List α) (n : Nat) (f : α → α),
      modifyAt (l1 ++ l2) (l1.length + n) f = l1 ++ modifyAt l2 n f := by
  intro l1
  induction l1 with
  | nil => intro l2 n f; simp
  | cons a rest ih =>
    intro l2 n f
    have hidx : (a :: rest).length + n = (rest.length + n) + 1 := by
      simp only [List.length_cons]; omega
    rw [hidx]
    show a :: modifyAt (rest ++ l2) (rest.length + n) f = a :: (rest ++ modifyAt l2 n f)
    rw [ih l2 n f]

/-- An in-place update at the index right past a list acts on a singleton
appended there. -/
theorem modifyAt_concat_last {α : Type} (l : List α) (x : α) (f : α → α) :
    modifyAt (l ++ [x]) l.length f = l ++ [f x] := by
  have h := modifyAt_append_right l [x] 0 f
  simpa using h

/-- Claim C7: a character write at an index at or beyond the current cell
count grows the row with blank cells up to that index and lands the
character there when the trailing message is unset; with the trailing
message set, the out-of-range write leaves the row entirely unchanged. -/
theorem C7_write_char_extend (row : BoardRow) (ch : Char) (idx : Nat)
    (h : row.cells.length ≤ idx) :
    (row.end_str = Option.none →
      (row.write_char ch idx).cells =
        row.cells ++ List.replicate (idx - row.cells.length) blankCell ++
          [{ blankCell with ch := ch }]) ∧
    (row.end_str ≠ Option.none → row.write_char ch idx = row) := by
  constructor
  · intro he
    unfold BoardRow.write_char
    rw [he]
    simp only [Option.isSome_none, Bool.false_eq_true, if_false, if_pos h]
    have hsplit : List.replicate (idx + 1 - row.cells.length) blankCell =
        List.replicate (idx - row.cells.length) blankCell ++ [blankCell] := by
      rw [show idx + 1 - row.cells.length = (idx - row.cells.length) + 1 from by omega]
      exact List.replicate_succ' _ _
    rw [hsplit, ← List.append_assoc]
    have hL : (row.cells ++ List.replicate (idx - row.cells.length) blankCell).length = idx := by
      simp only [List.length_append, List.length_replicate]; omega
    have key := modifyAt_concat_last
      (row.cells ++ List.replicate (idx - row.cells.length) blankCell) blankCell
      (fun c => { c with ch := ch })
    rw [hL] at key
    rw [key]
  · intro he
    unfold BoardRow.write_char
    rw [if_pos (Option.isSome_iff_ne_none.mpr he)]
    rw [modifyAt_out_of_range row.cells idx _ h]

/-- Witness for C7 at concrete inputs: an out-of-range write at index 1 on
an empty open row pads one blank and lands the character; the same write
on a row with a trailing message is dropped. -/
theorem C7_write_char_extend_witness :
    (BoardRow.write_char ⟨Option.none, [], Option.none⟩ 'x' 1).cells =
      [] ++ List.replicate 1 blankCell ++ [{ blankCell with ch := 'x' }] ∧
    BoardRow.write_char ⟨Option.none, [], some "m"⟩ 'x' 1 =
      ⟨Option.none, [], some "m"⟩ :=
  ⟨(C7_write_char_extend ⟨Option.none, [], Option.none⟩ 'x' 1 (by decide)).1 rfl,
   (C7_write_char_extend ⟨Option.none, [], some "m"⟩ 'x' 1 (by decide)).2
     (by simp)⟩

/-- Every member of a list of naturals is bounded by its iterator
maximum, which exists once the member does. -/
theorem listMax_mem_le :
    ∀ {l : List Nat} {a : Nat}, a ∈ l → ∃ m, listMax l = some m ∧ a ≤ m := by
  intro l
  induction l with
  | nil => intro a h; cases h
  | cons x rest ih =>
    intro a h
    rcases List.mem_cons.1 h with rfl | h2
    · cases hr : listMax rest with
      | none =>
        refine ⟨a, ?_, Nat.le_refl a⟩
        show (match listMax rest with
          | Option.none => some a
          | some b => some (Nat.max a b)) = some a
        rw [hr]
      | some b =>
        refine ⟨Nat.max a b, ?_, Nat.le_max_left a b⟩
        show (match listMax rest with
          | Option.none => some a
          | some b => some (Nat.max a b)) = some (Nat.max a b)
        rw [hr]
    · obtain ⟨m, hm, ham⟩ := ih h2
      refine ⟨Nat.max x m, ?_, Nat.le_trans ham (Nat.le_max_right x m)⟩
      show (match listMax rest with
        | Option.none => some x
        | some b => some (Nat.max x b)) = some (Nat.max x m)
      rw [hm]

/-- Claim C9: for every group produced by the grouping pass and every
member side index (strictly below the group size), the gutter column
subtraction `side_space - side * (side_pointer_length + 1) - 2 -
side_pointer_length` never underflows: the subtracted amount is bounded by
`side_space`. -/
theorem C9_gutter_no_underflow (msgs : List MultilineMsg) (spl : Nat)
    (g : MultilineGroup) (hg : g ∈ groupMultiline msgs)
    (side : Nat) (hside : side < g.msgs.length) :
    side * (spl + 1) + 2 + spl ≤ side_space (groupMultiline msgs) spl := by
  have hmem : g.msgs.length ∈ (groupMultiline msgs).map (fun g => g.msgs.length) :=
    List.mem_map_of_mem (fun g => g.msgs.length) hg
  obtain ⟨m, hm, hlm⟩ := listMax_mem_le hmem
  unfold side_space
  rw [hm]
  show side * (spl + 1) + 2 + spl ≤ m * (spl + 1) + 1
  have h1 : side + 1 ≤ m := by omega
  have h2 : (side + 1) * (spl + 1) ≤ m * (spl + 1) := Nat.mul_le_mul_right _ h1
  have h3 : (side + 1) * (spl + 1) = side * (spl + 1) + (spl + 1) := by ring
  omega

/-- Witness for C9 at a concrete input: the single group of `[mD]`, side
index 0, pointer length 2, where the bound holds with equality. -/
theorem C9_gutter_no_underflow_witness :
    0 * (2 + 1) + 2 + 2 ≤ side_space (groupMultiline [mD]) 2 :=
  C9_gutter_no_underflow [mD] 2 ⟨0, 2, [mD]⟩ (by decide) 0 (by decide)

/-- The spacing-adjustment of one entry does not change its key. -/
theorem adjustOne_fst (fl : List (Nat × FinalLine)) (e : Nat × FinalLine) :
    (adjustOne fl e).1 = e.1 := by
  unfold adjustOne
  split
  · rfl
  · rfl

/-- Claim C10: after the final spacing-adjustment pass, every referenced
line whose immediate successor line index is not referenced has spacing at
least 1, so its content row is followed by at least one spacer row. -/
theorem C10_trailing_spacer (fl : List (Nat × FinalLine)) (idx : Nat)
    (l : FinalLine) (hmem : (idx, l) ∈ adjustSpacing fl)
    (hsucc : ∀ l2 : FinalLine, (idx + 1, l2) ∉ adjustSpacing fl) :
    1 ≤ l.spacing := by
  obtain ⟨e, he, heq⟩ := List.mem_map.1 hmem
  have hkey : e.1 = idx := by
    rw [← adjustOne_fst fl e, heq]
  by_cases hc : e.2.spacing = 0 ∧ (∀ e2 ∈ fl, e2.1 ≠ e.1 + 1)
  · have : adjustOne fl e = (e.1, { e.2 with spacing := e.2.spacing + 1 }) := by
      unfold adjustOne
      rw [if_pos hc]
    rw [this] at heq
    have hl : l = { e.2 with spacing := e.2.spacing + 1 } :=
      (congrArg Prod.snd heq).symm
    rw [hl]
    exact Nat.le_add_left 1 e.2.spacing
  · have hone : adjustOne fl e = e := by
      unfold adjustOne
      rw [if_neg hc]
    rw [hone] at heq
    push_neg at hc
    by_cases hz : e.2.spacing = 0
    · obtain ⟨e2, he2, hk2⟩ := hc hz
      exfalso
      apply hsucc (adjustOne fl e2).2
      have hx : adjustOne fl e2 = (idx + 1, (adjustOne fl e2).2) := by
        have hfst : (adjustOne fl e2).1 = idx + 1 := by
          rw [adjustOne_fst fl e2, hk2, hkey]
        rw [← hfst]
      rw [← hx]
      exact List.mem_map_of_mem (adjustOne fl) he2
    · have hl : l = e.2 := (congrArg Prod.snd heq).symm
      rw [hl]
      omega

/-- Witness for C10 at a concrete input: the single referenced line 0 with
no successor gains one spacing row in the pass. -/
theorem C10_trailing_spacer_witness : 1 ≤ flOne.spacing :=
  C10_trailing_spacer [(0, FinalLine.new)] 0 flOne (by decide)
    (fun l2 h => by simp [adjustSpacing, adjustOne, FinalLine.new] at h)

end Lyneate
